import Mathlib

/-!
Verification development for the GTM competitive-intelligence pipeline
(two stages: `gtm_scraper.py`, the resumable Reddit comment scraper, and
`gtm_pipeline.py`, the triage / batch-classification / merge pipeline).

Every definition below is a shallow embedding of a function of the source,
translated statement by statement; machine-level collaborators (the Reddit
client, the file system, the Gemini call) are modelled at their interface
exactly as the source consumes them.
-/

/-! ## Sanitizer (`gtm_scraper.py`, `sanitize_text`, lines 44-56)

The source does three sequential single-character `str.replace` passes:
newline to space, carriage return to space, double quote to single quote,
after an emptiness guard (`if not text: return ""`). A single-character
Python `str.replace` is exactly a character-wise map. -/

/-- The apostrophe character (code point 39), written via `Char.ofNat`. -/
def apostChar : Char := Char.ofNat 39

/-- One single-character `str.replace(a, b)` pass. -/
def replaceChar (a b : Char) (l : List Char) : List Char :=
  l.map (fun c => if c = a then b else c)

/-- `sanitize_text` from `gtm_scraper.py`. `none` models a falsy / absent
input (`if not text: return ""`); the empty string is also falsy. -/
def sanitize_text : Option String → String
  | none => ""
  | some s =>
    if s = "" then ""
    else String.mk (replaceChar '"' apostChar (replaceChar '\r' ' ' (replaceChar '\n' ' ' s.data)))

/-- Decidable equality for `Except` results, used to evaluate the model
on concrete inputs. -/
instance {ε α : Type} [DecidableEq ε] [DecidableEq α] : DecidableEq (Except ε α) := fun x y =>
  match x, y with
  | .ok a, .ok b =>
    if h : a = b then isTrue (by rw [h]) else isFalse (by intro hc; injection hc; contradiction)
  | .error e, .error f =>
    if h : e = f then isTrue (by rw [h]) else isFalse (by intro hc; injection hc; contradiction)
  | .ok _, .error _ => isFalse (by intro hc; exact Except.noConfusion hc)
  | .error _, .ok _ => isFalse (by intro hc; exact Except.noConfusion hc)

/-! ## Resume-set construction (`gtm_scraper.py`, `initialize_scraper`, lines 74-96)

The existing Ledger file is modelled as a list of CSV rows (each a list of
cell strings). The source skips the header with `next(reader)` (a
`StopIteration` on an empty file is caught and yields the empty set), then
for every truthy (nonempty) row executes `saved_post_ids.add(row[1])`;
a nonempty row with fewer than two cells raises an uncaught `IndexError`. -/

/-- Python `set.add`, on a membership-faithful list model of the set. -/
def insertId (pid : String) (ids : List String) : List String :=
  if pid ∈ ids then ids else pid :: ids

/-- The row loop of the resume logic: for each nonempty row, add `row[1]`
to the accumulator; a nonempty row without a second cell is an
`IndexError` (not caught by the source's `except StopIteration`). -/
def buildSavedIdsAux : List (List String) → List String → Except String (List String)
  | [], acc => .ok acc
  | [] :: rs, acc => buildSavedIdsAux rs acc
  | (_ :: r1) :: rs, acc =>
    match r1 with
    | [] => .error "IndexError"
    | pid :: _ => buildSavedIdsAux rs (insertId pid acc)

/-- Resume-set construction from the existing file's rows. An absent file
and an empty file are both the empty row list (both yield the empty set in
the source); otherwise the first row (the header) is skipped. -/
def initialize_resume : List (List String) → Except String (List String)
  | [] => .ok []
  | _hd :: rows => buildSavedIdsAux rows []

/-- The fixed Ledger header row written on a new or empty file. -/
def ledgerHeader : List String :=
  ["Comment_ID", "Post_ID", "Subreddit", "Author", "Post_Score", "Comment_Score", "Raw_Text"]

/-! ## Ingestion engine (`gtm_scraper.py`, `fetch_comments` / `run_scraper`)

The Reddit collaborator is modelled deterministically: a submission
carries the flattened comment list its fetch yields (`comments` are the
comments the iteration produced before any exception) and whether the
fetch raised after them (`fetchErrs`). A subreddit source carries the post
listing its query yields, `none` when the listing itself raises. -/

structure RComment where
  id : String
  body : Option String
  authorName : Option String
  score : Int
deriving DecidableEq

structure Submission where
  id : String
  subredditName : String
  score : Int
  title : String
  comments : List RComment
  fetchErrs : Bool
deriving DecidableEq

structure SubSource where
  name : String
  listing : Option (List Submission)
deriving DecidableEq

/-- The comment filter of `fetch_comments`: the comment must have a `body`
attribute and its body must not be a deleted/removed placeholder. -/
def validBody : Option String → Option String
  | none => none
  | some b => if b = "[deleted]" ∨ b = "[removed]" then none else some b

/-- The 7-field CSV row `writer.writerow([...])` appends for one comment. -/
def commentRow (sub : Submission) (c : RComment) (b : String) : List String :=
  [c.id, sub.id, sub.subredditName, c.authorName.getD "[deleted_user]",
   toString sub.score, toString c.score, sanitize_text (some b)]

/-- The rows `fetch_comments` writes for one submission (valid comments,
in iteration order). -/
def writtenRows (sub : Submission) : List (List String) :=
  sub.comments.filterMap (fun c =>
    match validBody c.body with
    | some b => some (commentRow sub c b)
    | none => none)

/-- `fetch_comments(submission, writer, saved_post_ids)`: returns the rows
written and the updated processed set. The `saved_post_ids.add` sits
outside the `try`, so the id is added even on a fetch exception and even
with zero comments. -/
def fetch_comments (sub : Submission) (ids : List String) :
    List (List String) × List String :=
  (writtenRows sub, insertId sub.id ids)

structure ScrapeState where
  ledger : List (List String)
  ids : List String
deriving DecidableEq

/-- The per-post body of `run_scraper`'s inner loop: skip when the id is
in the processed set (no fetch, no write); otherwise fetch and append. -/
def processPost (st : ScrapeState) (sub : Submission) : ScrapeState :=
  if sub.id ∈ st.ids then st
  else
    { ledger := st.ledger ++ (fetch_comments sub st.ids).1,
      ids := (fetch_comments sub st.ids).2 }

/-- The per-subreddit body of `run_scraper`: a listing failure is caught
and the subreddit skipped; otherwise every listed post is processed. -/
def processSub (st : ScrapeState) (s : SubSource) : ScrapeState :=
  match s.listing with
  | none => st
  | some posts => posts.foldl processPost st

/-- `run_scraper(reddit, file, writer, saved_post_ids)`: iterate the
configured subreddits in order. -/
def run_scraper (source : List SubSource) (st : ScrapeState) : ScrapeState :=
  source.foldl processSub st

/-- All posts the run iterates, in order (listing failures contribute
nothing). -/
def postsOf (source : List SubSource) : List Submission :=
  (source.map (fun s => s.listing.getD [])).flatten

/-- One whole scraper run over a given Ledger file: rebuild the resume
set, write the header when the file is new or empty, append every row the
run produces. Returns the resulting Ledger file. -/
def scraperRun (source : List SubSource) (fileRows : List (List String)) :
    Except String (List (List String)) :=
  match initialize_resume fileRows with
  | .error e => .error e
  | .ok ids0 =>
    let base := if fileRows.isEmpty then [ledgerHeader] else fileRows
    .ok (base ++ (run_scraper source { ledger := [], ids := ids0 }).ledger)

/-! ## Scraper `main` and `initialize_scraper`'s return arity
(`gtm_scraper.py`, lines 59-72 and 221-226)

On a PRAW authentication failure `initialize_scraper` returns the 3-tuple
`(None, None, None)`; `main` unpacks its result into 4 names. The values
are modelled dynamically, as Python holds them. -/

inductive PyVal where
  | pyNone
  | redditClient
  | fileHandle
  | csvWriter
  | idSet (ids : List String)
deriving DecidableEq

/-- `initialize_scraper()`: the authentication branch returns the 3-tuple
`(None, None, None)`; the success branch builds the resume set and returns
the 4-tuple `(reddit, file, writer, saved_post_ids)`. -/
def initialize_scraper (authOk : Bool) (fileRows : List (List String)) :
    Except String (List PyVal) :=
  if authOk then
    match initialize_resume fileRows with
    | .error e => .error e
    | .ok ids => .ok [.redditClient, .fileHandle, .csvWriter, .idSet ids]
  else .ok [.pyNone, .pyNone, .pyNone]

/-- Python tuple unpacking into exactly 4 names: a `ValueError` unless the
sequence has exactly 4 elements. -/
def unpack4 (vals : List PyVal) : Except String (PyVal × PyVal × PyVal × PyVal) :=
  match vals with
  | [a, b, c, d] => .ok (a, b, c, d)
  | _ => .error "ValueError"

inductive MainOutcome where
  | crashed (msg : String)
  | exitedViaGuard
  | ranScraper
deriving DecidableEq

/-- The head of the scraper's `main()`: unpack `initialize_scraper()`'s
result into 4 names, then run the `if not reddit: return` guard. -/
def scraper_main (authOk : Bool) (fileRows : List (List String)) : MainOutcome :=
  match initialize_scraper authOk fileRows with
  | .error e => .crashed e
  | .ok vals =>
    match unpack4 vals with
    | .error e => .crashed e
    | .ok (r, _f, _w, _ids) => if r = .pyNone then .exitedViaGuard else .ranScraper

/-! ## Triage normalization (`gtm_pipeline.py`, `clean_text_for_triage`, lines 119-148)

Six steps of the source: (1) `encode('ascii','ignore')` drops every
non-ASCII character; (2) `re.sub(r'http\S+|www\S+', '')`; (3)
`re.sub(r'\[.*?\]\(.*?\)', '')`; (4) `lower()`; (5) `re.sub(r'[^\w\s]',
'')`; (6) `re.sub(r'\s+', ' ')` then `strip()`. Steps 2-6 only ever see
ASCII text (step 1 runs first), so the ASCII readings of `\s` and `\w`
are exact. The two scanning substitutions are implemented with a fuel
argument equal to the input length; each match consumes at least one
character, so the fuel never runs out on the real argument. -/

/-- Python `\s` on ASCII text: space, tab, newline, carriage return,
vertical tab, form feed. -/
def isPySpace (c : Char) : Bool :=
  c = ' ' ∨ c = '\t' ∨ c = '\n' ∨ c = '\r' ∨ c = '\x0b' ∨ c = '\x0c'

/-- Python `\w` on ASCII text: letters, digits, underscore. -/
def isWordChar (c : Char) : Bool :=
  c.isAlphanum ∨ c = '_'

/-- Try the `http\S+` branch at the head of the list: the literal `http`
followed by at least one non-space character; the greedy `\S+` consumes
the maximal non-space run. Returns the remainder after the match. -/
def matchHttp : List Char → Option (List Char)
  | 'h' :: 't' :: 't' :: 'p' :: rest =>
    match rest with
    | [] => none
    | c :: _ => if isPySpace c then none else some (rest.dropWhile (fun d => !(isPySpace d)))
  | _ => none

/-- Try the `www\S+` branch at the head of the list. -/
def matchWww : List Char → Option (List Char)
  | 'w' :: 'w' :: 'w' :: rest =>
    match rest with
    | [] => none
    | c :: _ => if isPySpace c then none else some (rest.dropWhile (fun d => !(isPySpace d)))
  | _ => none

/-- Left-to-right scan of `re.sub(r'http\S+|www\S+', '', text)`: at each
position try the alternation (in order); on a match drop it and resume
after it, otherwise keep the character. Fuel-bounded recursion. -/
def subUrlsAux : Nat → List Char → List Char
  | 0, _ => []
  | _, [] => []
  | fuel + 1, c :: rest =>
    match matchHttp (c :: rest) with
    | some rem => subUrlsAux fuel rem
    | none =>
      match matchWww (c :: rest) with
      | some rem => subUrlsAux fuel rem
      | none => c :: subUrlsAux fuel rest

def subUrls (l : List Char) : List Char := subUrlsAux l.length l

/-- Scan the characters after a `[` for the first `](` reachable without
crossing a newline (`.` does not match a newline; the lazy `.*?` together
with backtracking picks exactly the first such occurrence). Returns the
remainder after the `(`. -/
def scanToBracketParen : List Char → Option (List Char)
  | [] => none
  | ']' :: '(' :: rest => some rest
  | '\n' :: _ => none
  | _ :: rest => scanToBracketParen rest

/-- Scan for the first `)` reachable without crossing a newline. Returns
the remainder after it. -/
def scanToParen : List Char → Option (List Char)
  | [] => none
  | ')' :: rest => some rest
  | '\n' :: _ => none
  | _ :: rest => scanToParen rest

/-- Try `\[.*?\]\(.*?\)` at the head of the list; returns the remainder
after the whole match. -/
def mdMatch : List Char → Option (List Char)
  | '[' :: rest =>
    match scanToBracketParen rest with
    | none => none
    | some rest2 => scanToParen rest2
  | _ => none

/-- Left-to-right scan of `re.sub(r'\[.*?\]\(.*?\)', '', text)`.
Fuel-bounded recursion. -/
def subMdAux : Nat → List Char → List Char
  | 0, _ => []
  | _, [] => []
  | fuel + 1, c :: rest =>
    match mdMatch (c :: rest) with
    | some rem => subMdAux fuel rem
    | none => c :: subMdAux fuel rest

def subMd (l : List Char) : List Char := subMdAux l.length l

/-- `re.sub(r'\s+', ' ', text)`: replace every maximal whitespace run by a
single space. -/
def collapseSpaces : List Char → List Char
  | [] => []
  | [c] => if isPySpace c then [' '] else [c]
  | c1 :: c2 :: rest =>
    if isPySpace c1 ∧ isPySpace c2 then collapseSpaces (c2 :: rest)
    else (if isPySpace c1 then ' ' else c1) :: collapseSpaces (c2 :: rest)

/-- Python `str.strip()`: drop leading and trailing whitespace. -/
def stripList (l : List Char) : List Char :=
  ((l.dropWhile isPySpace).reverse.dropWhile isPySpace).reverse

/-- Steps 1-6 of `clean_text_for_triage` on an actual string. -/
def cleanSteps (s : String) : String :=
  let t1 := s.data.filter (fun c => c.toNat < 128)
  let t2 := subUrls t1
  let t3 := subMd t2
  let t4 := t3.map Char.toLower
  let t5 := t4.filter (fun c => isWordChar c ∨ isPySpace c)
  String.mk (stripList (collapseSpaces t5))

/-- `clean_text_for_triage(text)`: the `isinstance(text, str)` guard
returns the empty string on non-string input (a NaN cell), modelled by
`none`. -/
def clean_text_for_triage : Option String → String
  | none => ""
  | some s => cleanSteps s

/-! ## Triage filter (`gtm_pipeline.py`, `load_and_triage_data`, lines 151-195) -/

/-- The configured triage keywords (`GTM_CONFIG["TRIAGE_KEYWORDS"]`). -/
def TRIAGE_KEYWORDS : List String :=
  ["grok", "xai", "chatgpt", "openai", "gemini", "google ai", "claude", "anthropic",
   "censored", "woke", "hallucination", "too expensive", "bias", "unbiased"]

def MAX_COMMENT_LENGTH : Nat := 3000

def BATCH_SIZE : Nat := 50

/-- Substring test on character lists (Python's `in` / an alternation of
literal patterns in `Series.str.contains`). -/
def strContainsList (hay needle : List Char) : Bool :=
  match hay with
  | [] => needle.isEmpty
  | _ :: t => needle.isPrefixOf hay ∨ strContainsList t needle

def strContains (hay needle : String) : Bool :=
  strContainsList hay.data needle.data

/-- The keyword filter `Cleaned_Triage_Text.str.contains('|'.join(TRIAGE_KEYWORDS))`:
an OR-combined substring match of the literal keywords. -/
def containsAnyKeyword (s : String) : Bool :=
  TRIAGE_KEYWORDS.any (fun k => strContains s k)

/-- A raw Ledger row as `pd.read_csv` delivers it; `none` fields model
NaN cells. -/
structure RawRow where
  comment_id : String
  post_id : String
  subreddit : String
  author : Option String
  post_score : Int
  comment_score : Int
  raw_text : Option String
deriving DecidableEq

/-- A triage-output row: the raw row plus the derived
`Cleaned_Triage_Text` column. -/
abbrev TRow := RawRow × String

/-- Python `str.lower()`, character-wise on the string's data. -/
def lowerStr (s : String) : String := String.mk (s.data.map Char.toLower)

/-- The bot filter `Author.str.contains('Bot|AutoModerator', case=False,
na=False)`: case-insensitive substring match, `False` on a missing
author. -/
def isBotAuthor : Option String → Bool
  | none => false
  | some a => strContains (lowerStr a) "bot" ∨ strContains (lowerStr a) "automoderator"

/-- `load_and_triage_data()` after the CSV read: basic cleaning (drop NaN
text, drop placeholder text, drop bot authors), derive the cleaned triage
text, keyword-filter on it, cap the *raw* text length, then compute the
`percent_triaged` diagnostic — whose divisor `len(df_raw)` raises a
`ZeroDivisionError` on an empty raw table. -/
def load_and_triage_data (dfRaw : List RawRow) : Except String (List TRow) :=
  let dfClean1 := dfRaw.filter (fun r => r.raw_text.isSome)
  let dfClean2 := dfClean1.filter
    (fun r => !(r.raw_text = some "[deleted]" ∨ r.raw_text = some "[removed]"))
  let dfClean3 := dfClean2.filter (fun r => !(isBotAuthor r.author))
  let withCleaned : List TRow := dfClean3.map (fun r => (r, clean_text_for_triage r.raw_text))
  let dfTriaged1 := withCleaned.filter (fun p => containsAnyKeyword p.2)
  let dfTriaged2 := dfTriaged1.filter
    (fun p => (p.1.raw_text.getD "").length < MAX_COMMENT_LENGTH)
  if dfRaw.length = 0 then .error "ZeroDivisionError" else .ok dfTriaged2

/-! ## Batch classification (`gtm_pipeline.py`, `analyze_batch` and the
`main` batch loop, lines 197-262) -/

/-- A classification record of the external model's JSON response. -/
structure CRec where
  comment_id : String
  product_mentioned : String
  sentiment : String
  pain_point : String
deriving DecidableEq

/-- One entry of the quarantine (`gtm_failed_batches.csv`) file: the
header line `to_csv` writes on creation, or one written candidate row
(the source writes every column of the batch frame). -/
inductive QEntry where
  | header
  | row (r : TRow)
deriving DecidableEq

/-- `batch_df.to_csv(FAILED_BATCH_FILENAME, mode='a', header=not
os.path.exists(...))`: `none` models an absent file; the header is
written only when the file is being created. -/
def appendQuarantine : Option (List QEntry) → List TRow → Option (List QEntry)
  | none, b => some (QEntry.header :: b.map QEntry.row)
  | some f, b => some (f ++ b.map QEntry.row)

/-- `analyze_batch(batch_df, model)` with its call's outcome made
explicit: a conforming parsed response contributes its records; any
exception (network, parse) appends the whole batch to the quarantine file
and contributes the empty list. -/
def analyze_batch (outcome : Except Unit (List CRec)) (batch : List TRow)
    (qf : Option (List QEntry)) : List CRec × Option (List QEntry) :=
  match outcome with
  | .ok rs => (rs, qf)
  | .error _ => ([], appendQuarantine qf batch)

/-- `df_triaged.iloc[i : i+BATCH_SIZE]` for `i in range(0, n, BATCH_SIZE)`:
successive take/drop chunks, fuel-bounded by the list length (each step
consumes at least one element since `BATCH_SIZE > 0`). -/
def chunkAux (bs : Nat) : Nat → List TRow → List (List TRow)
  | _, [] => []
  | 0, l => [l]
  | fuel + 1, l => l.take bs :: chunkAux bs fuel (l.drop bs)

def chunkBatches (l : List TRow) : List (List TRow) :=
  chunkAux BATCH_SIZE l.length l

/-- The batch loop of `main` (lines 252-261): run `analyze_batch` on each
chunk in order, extending the accumulator with the batch's records and
threading the quarantine file. `classify i b` is the external call's
outcome for the `i`-th batch. -/
def batchLoop (classify : Nat → List TRow → Except Unit (List CRec)) :
    List (List TRow) → Nat → List CRec → Option (List QEntry) →
    List CRec × Option (List QEntry)
  | [], _, res, qf => (res, qf)
  | b :: bs, i, res, qf =>
    let pr := analyze_batch (classify i b) b qf
    batchLoop classify bs (i + 1) (res ++ pr.1) pr.2

/-- Phase 3 of `main`: chunk the triage output and run every batch. -/
def runClassification (classify : Nat → List TRow → Except Unit (List CRec))
    (triaged : List TRow) (qf0 : Option (List QEntry)) :
    List CRec × Option (List QEntry) :=
  batchLoop classify (chunkBatches triaged) 0 [] qf0

/-- An external-failure pattern where exactly batch `k` fails and every
other batch returns the conforming records `g` yields for it. -/
def failClassify (k : Nat) (g : List TRow → List CRec) :
    Nat → List TRow → Except Unit (List CRec) :=
  fun i b => if i = k then .error () else .ok (g b)

/-! ## Result merger (`gtm_pipeline.py`, `main`, lines 274-305)

`pd.merge(results_df, df_triaged, on='Comment_ID', how='left')` then a
`reindex` to the fixed final column order. A left merge emits, for each
left (classification) row in order, one output row per matching right
(triage) row; a left row with no match is emitted once with NaN in every
right-hand column. -/

/-- A final-table row after the `reindex(columns=final_columns)`; `none`
models NaN cells of unmatched classification rows. -/
structure FinalRow where
  comment_id : String
  subreddit : Option String
  author : Option String
  post_score : Option Int
  comment_score : Option Int
  product_mentioned : String
  sentiment : String
  pain_point : String
  raw_text : Option String
deriving DecidableEq

def mkMatchedRow (r : CRec) (t : TRow) : FinalRow :=
  { comment_id := r.comment_id, subreddit := some t.1.subreddit,
    author := t.1.author, post_score := some t.1.post_score,
    comment_score := some t.1.comment_score,
    product_mentioned := r.product_mentioned, sentiment := r.sentiment,
    pain_point := r.pain_point, raw_text := t.1.raw_text }

def mkUnmatchedRow (r : CRec) : FinalRow :=
  { comment_id := r.comment_id, subreddit := none, author := none,
    post_score := none, comment_score := none,
    product_mentioned := r.product_mentioned, sentiment := r.sentiment,
    pain_point := r.pain_point, raw_text := none }

/-- The rows one classification record contributes to the left merge. -/
def mergeRowsFor (triaged : List TRow) (r : CRec) : List FinalRow :=
  match triaged.filter (fun t => t.1.comment_id == r.comment_id) with
  | [] => [mkUnmatchedRow r]
  | ms => ms.map (mkMatchedRow r)

/-- The final-table left merge, anchored on the classification results. -/
def leftMergeFinal (results : List CRec) (triaged : List TRow) : List FinalRow :=
  (results.map (mergeRowsFor triaged)).flatten

/-! ## Concrete inputs used by witnesses and counterexamples -/

/-- The comment body of the spec's concrete normalization scenario (the
apostrophe written via `apostChar`). -/
def c4Input : String :=
  "I think grok" ++ String.mk [apostChar] ++
    "s bias is SO bad!! see http://x.co [link](http://y.co)"

/-- A raw Ledger row carrying that body. -/
def c4Row : RawRow :=
  { comment_id := "c4", post_id := "p4", subreddit := "grok", author := some "alice",
    post_score := 3, comment_score := 1, raw_text := some c4Input }

/-- A submission whose comment fetch raises before yielding any comment. -/
def subErrEx : Submission :=
  { id := "p9", subredditName := "grok", score := 0, title := "t",
    comments := [], fetchErrs := true }

/-- A one-subreddit, one-post, one-comment source set. -/
def srcEx : List SubSource :=
  [{ name := "grok",
     listing := some [{ id := "p1", subredditName := "grok", score := 10, title := "t",
                        comments := [{ id := "c1", body := some "hello grok",
                                       authorName := some "alice", score := 2 }],
                        fetchErrs := false }] }]

/-- The Ledger file one run of `srcEx` produces from an empty store. -/
def ledgerEx : List (List String) :=
  [ledgerHeader, ["c1", "p1", "grok", "alice", "10", "2", "hello grok"]]

/-- A classification record whose id matches no triage candidate. -/
def crecZZZ : CRec :=
  { comment_id := "zzz", product_mentioned := "grok", sentiment := "Negative",
    pain_point := "Censorship" }

/-- A triage candidate with no classification record. -/
def trowAAA : TRow :=
  ({ comment_id := "aaa", post_id := "p", subreddit := "grok", author := some "bob",
     post_score := 5, comment_score := 2, raw_text := some "grok is fine" }, "grok is fine")

/-- A small raw row whose text survives triage. -/
def mkRawN (n : Nat) : RawRow :=
  { comment_id := toString n, post_id := "p", subreddit := "grok", author := some "alice",
    post_score := 1, comment_score := 1, raw_text := some "grok" }

/-- 120 triage candidates, the spec's concrete batching scenario. -/
def t120 : List TRow := (List.range 120).map (fun n => (mkRawN n, "grok"))

/-- A conforming per-batch response: one record per input row, matching id. -/
def g120 : List TRow → List CRec :=
  fun b => b.map (fun t => { comment_id := t.1.comment_id, product_mentioned := "grok",
                             sentiment := "Negative", pain_point := "N/A" })

/-! # Theorems -/

/-! ## Shared list facts about the model -/

theorem insertId_mem (p x : String) (ids : List String) :
    x ∈ insertId p ids ↔ x = p ∨ x ∈ ids := by
  unfold insertId
  by_cases h : p ∈ ids
  · simp only [if_pos h]
    constructor
    · exact Or.inr
    · rintro (rfl | hx)
      · exact h
      · exact hx
  · simp [if_neg h, List.mem_cons]

/-! ## Claim C8 — the storage sanitizer -/

theorem replace_compose (l : List Char) :
    replaceChar '"' apostChar (replaceChar '\r' ' ' (replaceChar '\n' ' ' l)) =
      l.map (fun c => if c = '\n' ∨ c = '\r' then ' ' else if c = '"' then apostChar else c) := by
  simp only [replaceChar, List.map_map]
  apply List.map_congr_left
  intro c _
  by_cases h1 : c = '\n'
  · subst h1; rfl
  · by_cases h2 : c = '\r'
    · subst h2; rfl
    · by_cases h3 : c = '"'
      · subst h3; rfl
      · have hor : ¬(c = '\n' ∨ c = '\r') := by tauto
        simp [Function.comp, if_neg h1, if_neg h2, if_neg h3, if_neg hor]

/-- Claim C8: for every input, `sanitize_text` equals the character-wise
replacement of newline and carriage return by a space and of the double
quote by the apostrophe, with everything else unchanged; empty or absent
input yields the empty string (the `none` and `some ""` cases of the
first conjunct), and the output never contains a newline, carriage
return, or double quote. -/
theorem sanitize_storage_correct (t : Option String) :
    (sanitize_text t).data = (match t with
      | none => []
      | some s => s.data.map (fun c =>
          if c = '\n' ∨ c = '\r' then ' ' else if c = '"' then apostChar else c)) ∧
    ∀ c ∈ (sanitize_text t).data, c ≠ '\n' ∧ c ≠ '\r' ∧ c ≠ '"' := by
  have hmain : (sanitize_text t).data = (match t with
      | none => []
      | some s => s.data.map (fun c =>
          if c = '\n' ∨ c = '\r' then ' ' else if c = '"' then apostChar else c)) := by
    cases t with
    | none => rfl
    | some s =>
      by_cases hs : s = ""
      · subst hs; rfl
      · have hstep : sanitize_text (some s) =
            String.mk (replaceChar '"' apostChar (replaceChar '\r' ' '
              (replaceChar '\n' ' ' s.data))) := by
          simp only [sanitize_text]
          rw [if_neg hs]
        rw [hstep, replace_compose]
  refine ⟨hmain, ?_⟩
  intro c hc
  rw [hmain] at hc
  cases t with
  | none => simp at hc
  | some s =>
    simp only [List.mem_map] at hc
    obtain ⟨c0, _, rfl⟩ := hc
    by_cases h1 : c0 = '\n' ∨ c0 = '\r'
    · simp [if_pos h1]
    · by_cases h3 : c0 = '"'
      · subst h3
        simp only [if_neg h1, if_pos rfl]
        refine ⟨by decide, by decide, by decide⟩
      · simp only [if_neg h1, if_neg h3]
        push_neg at h1
        exact ⟨h1.1, h1.2, h3⟩

/-! ## Claim C9 — the authentication-failure path of the scraper's `main` -/

/-- Claim C9: whenever PRAW authentication fails, `initialize_scraper`
returns the 3-tuple `(None, None, None)` while `main` unpacks 4 names,
so for every pre-existing Ledger content the run crashes with a
`ValueError` and the `if not reddit` clean-exit guard is never reached. -/
theorem auth_failure_unpack_crash (fileRows : List (List String)) :
    scraper_main false fileRows = .crashed "ValueError" ∧
    scraper_main false fileRows ≠ .exitedViaGuard := by
  refine ⟨rfl, ?_⟩
  intro hcontra
  have : MainOutcome.crashed "ValueError" = MainOutcome.exitedViaGuard := by
    rw [← hcontra]; rfl
  exact MainOutcome.noConfusion this

/-! ## Claim C5 — resume-set construction is not total -/

/-- Claim C5 counterexample: an existing file whose (nonempty) data row
has fewer than two columns makes the startup set construction raise an
`IndexError` — it is not total, contradicting the claim that every
pre-existing content yields a set without failing. -/
theorem resume_total_counterexample :
    initialize_resume [ledgerHeader, ["c1"]] = .error "IndexError" := rfl

theorem bsia_ok_of_shape : ∀ (rs : List (List String)) (acc : List String),
    (∀ r ∈ rs, r = [] ∨ 2 ≤ r.length) → (buildSavedIdsAux rs acc).isOk = true := by
  intro rs
  induction rs with
  | nil => intro acc _; rfl
  | cons r rs ih =>
    intro acc h
    cases r with
    | nil => exact ih acc (fun r hr => h r (List.mem_cons_of_mem _ hr))
    | cons a r1 =>
      cases r1 with
      | nil =>
        rcases h [a] (List.mem_cons_self _ _) with h0 | h2
        · exact absurd h0 (by simp)
        · simp at h2
      | cons pid r2 =>
        exact ih (insertId pid acc) (fun r hr => h r (List.mem_cons_of_mem _ hr))

/-- Claim C5 amended: an absent or empty existing file yields the empty
set, and set construction succeeds on every file whose nonempty data rows
all have at least two columns; it raises an `IndexError` (see the
counterexample) on a nonempty data row with fewer than two. -/
theorem resume_build_amended :
    initialize_resume [] = .ok [] ∧
    ∀ hd rows, (∀ r ∈ rows, r = [] ∨ 2 ≤ r.length) →
      (initialize_resume (hd :: rows)).isOk = true := by
  refine ⟨rfl, ?_⟩
  intro hd rows h
  exact bsia_ok_of_shape rows [] h

/-- Witness for the amended C5 claim at a concrete well-formed file. -/
theorem resume_build_amended_witness :
    (initialize_resume [ledgerHeader, ["c9", "p9"]]).isOk = true :=
  resume_build_amended.2 ledgerHeader [["c9", "p9"]] (by decide)

/-! ## Claim C7 — a post is marked processed even on a fetch error -/

theorem processPost_skip (st : ScrapeState) (sub : Submission) (h : sub.id ∈ st.ids) :
    processPost st sub = st := by
  unfold processPost
  rw [if_pos h]

theorem processPost_go (st : ScrapeState) (sub : Submission) (h : sub.id ∉ st.ids) :
    processPost st sub =
      { ledger := st.ledger ++ writtenRows sub, ids := insertId sub.id st.ids } := by
  unfold processPost fetch_comments
  rw [if_neg h]

theorem processPost_ids_mem (st : ScrapeState) (sub : Submission) :
    sub.id ∈ (processPost st sub).ids := by
  by_cases h : sub.id ∈ st.ids
  · rw [processPost_skip st sub h]; exact h
  · rw [processPost_go st sub h]
    exact (insertId_mem _ _ _).mpr (Or.inl rfl)

/-- Claim C7: for a post whose comment fetch raises (or yields zero
comments), the post id is still added to the processed set after the
fetch attempt, and any later occurrence of the same post id in the run is
skipped without changing the state — the post is not retried. -/
theorem post_marked_processed (st : ScrapeState) (sub : Submission)
    (h : sub.fetchErrs = true ∨ sub.comments = []) :
    sub.id ∈ (processPost st sub).ids ∧
    ∀ sub2 : Submission, sub2.id = sub.id →
      processPost (processPost st sub) sub2 = processPost st sub := by
  have h1 : sub.id ∈ (processPost st sub).ids := processPost_ids_mem st sub
  refine ⟨h1, ?_⟩
  intro sub2 h2
  apply processPost_skip
  rw [h2]
  exact h1

/-- Witness for C7 at a post whose fetch raised before any comment. -/
theorem post_marked_processed_witness :
    "p9" ∈ (processPost { ledger := [], ids := [] } subErrEx).ids :=
  (post_marked_processed { ledger := [], ids := [] } subErrEx (Or.inl rfl)).1

/-! ## Claim C10 — the triage-ratio diagnostic divides by the raw row count -/

/-- Claim C10: on a raw table with zero data rows, `load_and_triage_data`
raises a `ZeroDivisionError` computing `percent_triaged` (so the empty
input never reaches the empty-triage clean-termination path of `main`);
on every nonempty raw table the function returns normally. -/
theorem triage_ratio_empty_crash :
    load_and_triage_data [] = .error "ZeroDivisionError" ∧
    ∀ rows : List RawRow, rows ≠ [] → (load_and_triage_data rows).isOk = true := by
  refine ⟨rfl, ?_⟩
  intro rows hne
  cases rows with
  | nil => exact absurd rfl hne
  | cons r rest => rfl

/-- Witness for C10 at a concrete one-row table. -/
theorem triage_ratio_empty_crash_witness :
    (load_and_triage_data [mkRawN 0]).isOk = true :=
  triage_ratio_empty_crash.2 [mkRawN 0] (by decide)

/-! ## Claim C6 — triage monotonicity -/

theorem sublist_through_map_filters {α β : Type} (q1 q2 : β → Bool) (f : α → β)
    (g : β → α) (hg : ∀ a, g (f a) = a) (l : List α) :
    ((List.filter q2 (List.filter q1 (List.map f l))).map g).Sublist l := by
  have h1 : (List.filter q2 (List.filter q1 (List.map f l))).Sublist (List.map f l) :=
    (List.filter_sublist _).trans (List.filter_sublist _)
  have h2 := h1.map g
  rw [List.map_map] at h2
  have h3 : List.map (g ∘ f) l = l := by
    have hc : ∀ a ∈ l, (g ∘ f) a = id a := fun a _ => hg a
    rw [List.map_congr_left hc, List.map_id]
  rwa [h3] at h2

/-- Claim C6: whenever triage returns, its output is a sublist (hence a
subset) of the input rows; every surviving row's original raw text exists
and has length strictly below the configured maximum (the cap reads the
raw text, not the normalized text), its stored normalized text is exactly
the normalization of that raw text, and that normalized text contains at
least one configured keyword. -/
theorem triage_monotone (rows : List RawRow) (t : List TRow)
    (h : load_and_triage_data rows = .ok t) :
    (t.map Prod.fst).Sublist rows ∧
    ∀ p ∈ t, ∃ s, p.1.raw_text = some s ∧ s.length < MAX_COMMENT_LENGTH ∧
      p.2 = clean_text_for_triage (some s) ∧ containsAnyKeyword p.2 = true := by
  simp only [load_and_triage_data] at h
  by_cases h0 : rows.length = 0
  · rw [if_pos h0] at h
    exact absurd h (by simp)
  · rw [if_neg h0] at h
    injection h with ht
    subst ht
    constructor
    · refine (sublist_through_map_filters _ _ _ Prod.fst (fun a => rfl) _).trans ?_
      exact (List.filter_sublist _).trans ((List.filter_sublist _).trans (List.filter_sublist _))
    · intro p hp
      rw [List.mem_filter] at hp
      obtain ⟨hp1, hlen⟩ := hp
      rw [List.mem_filter] at hp1
      obtain ⟨hp2, hkw⟩ := hp1
      rw [List.mem_map] at hp2
      obtain ⟨r, hr, rfl⟩ := hp2
      rw [List.mem_filter] at hr
      obtain ⟨hr2, _⟩ := hr
      rw [List.mem_filter] at hr2
      obtain ⟨hr3, _⟩ := hr2
      rw [List.mem_filter] at hr3
      obtain ⟨_, hsome⟩ := hr3
      obtain ⟨s, hs⟩ := Option.isSome_iff_exists.mp hsome
      refine ⟨s, hs, ?_, ?_, ?_⟩
      · have hlt := of_decide_eq_true hlen
        rwa [hs, Option.getD_some] at hlt
      · show clean_text_for_triage r.raw_text = _
        rw [hs]
      · exact hkw

/-- Witness for C6 at a concrete one-row table that survives triage. -/
theorem triage_monotone_witness :
    (([(mkRawN 0, "grok")] : List TRow).map Prod.fst).Sublist [mkRawN 0] :=
  (triage_monotone [mkRawN 0] [(mkRawN 0, "grok")] (by decide)).1

/-! ## Claim C2 — merge semantics of the final table -/

theorem mergeRowsFor_ids (triaged : List TRow) (r : CRec) :
    ∀ fr ∈ mergeRowsFor triaged r, fr.comment_id = r.comment_id := by
  intro fr hfr
  unfold mergeRowsFor at hfr
  cases hfil : List.filter (fun t => t.1.comment_id == r.comment_id) triaged with
  | nil =>
    rw [hfil] at hfr
    simp only [List.mem_singleton] at hfr
    subst hfr
    rfl
  | cons m ms =>
    rw [hfil] at hfr
    simp only [List.mem_map] at hfr
    obtain ⟨t, _, rfl⟩ := hfr
    rfl

theorem mergeRowsFor_ne_nil (triaged : List TRow) (r : CRec) :
    mergeRowsFor triaged r ≠ [] := by
  unfold mergeRowsFor
  cases hfil : List.filter (fun t => t.1.comment_id == r.comment_id) triaged with
  | nil => simp
  | cons m ms => simp

/-- Claim C2 counterexample: a classification record (`"zzz"`) matching no
triage candidate is not dropped by the merge — it yields one final-table
row with absent (NaN) metadata; the claim asserted it would be silently
dropped. -/
theorem merge_drop_counterexample :
    leftMergeFinal [crecZZZ] [trowAAA] = [mkUnmatchedRow crecZZZ] ∧
    (mkUnmatchedRow crecZZZ).comment_id = "zzz" ∧
    (mkUnmatchedRow crecZZZ).subreddit = none :=
  ⟨by decide, rfl, rfl⟩

/-- Claim C2 amended: the merge is a left join anchored on the
classification results: every classification record contributes at least
one final-table row carrying its id (an unmatched record yields a row
with absent metadata rather than being dropped), every final-table row's
id comes from some classification record — hence a triage candidate with
no classification record is excluded from the final table. -/
theorem merge_left_anchored (results : List CRec) (triaged : List TRow) :
    (∀ r ∈ results, r.comment_id ∈ (leftMergeFinal results triaged).map FinalRow.comment_id) ∧
    (∀ x ∈ (leftMergeFinal results triaged).map FinalRow.comment_id,
      x ∈ results.map CRec.comment_id) ∧
    (∀ r ∈ results, List.filter (fun t => t.1.comment_id == r.comment_id) triaged = [] →
      mkUnmatchedRow r ∈ leftMergeFinal results triaged) := by
  refine ⟨?_, ?_, ?_⟩
  · intro r hr
    obtain ⟨fr, hfr⟩ := List.exists_mem_of_ne_nil _ (mergeRowsFor_ne_nil triaged r)
    have hin : fr ∈ leftMergeFinal results triaged := by
      unfold leftMergeFinal
      rw [List.mem_flatten]
      exact ⟨mergeRowsFor triaged r, List.mem_map_of_mem _ hr, hfr⟩
    rw [List.mem_map]
    exact ⟨fr, hin, mergeRowsFor_ids triaged r fr hfr⟩
  · intro x hx
    rw [List.mem_map] at hx
    obtain ⟨fr, hfr, rfl⟩ := hx
    unfold leftMergeFinal at hfr
    rw [List.mem_flatten] at hfr
    obtain ⟨l, hl, hfrl⟩ := hfr
    rw [List.mem_map] at hl
    obtain ⟨r, hrres, rfl⟩ := hl
    rw [List.mem_map]
    exact ⟨r, hrres, (mergeRowsFor_ids triaged r fr hfrl).symm⟩
  · intro r hr hfil
    unfold leftMergeFinal
    rw [List.mem_flatten]
    refine ⟨mergeRowsFor triaged r, List.mem_map_of_mem _ hr, ?_⟩
    unfold mergeRowsFor
    rw [hfil]
    exact List.mem_singleton_self _

/-- Witness for the amended C2 claim: the unmatched record's id appears in
the final table. -/
theorem merge_left_anchored_witness :
    "zzz" ∈ (leftMergeFinal [crecZZZ] [trowAAA]).map FinalRow.comment_id :=
  (merge_left_anchored [crecZZZ] [trowAAA]).1 crecZZZ (by decide)

/-! ## Claim C4 — the concrete normalization scenario -/

/-- Claim C4 counterexample: on the spec's concrete comment body the
normalization does not return `"i think groks bias is so bad see"` — the
URL pass already consumed `http://y.co)` including the closing
parenthesis, so the markdown-link pass finds no `)` and the label text
survives. -/
theorem triage_normalize_counterexample :
    clean_text_for_triage (some c4Input) ≠ "i think groks bias is so bad see" := by decide

/-- Claim C4 amended: the concrete body normalizes to
`"i think groks bias is so bad see link"` (the markdown-link pattern
cannot match once the URL pass has eaten the closing parenthesis), that
text contains a configured keyword, and a Ledger row carrying the body is
retained by the keyword filter. -/
theorem triage_normalize_amended :
    clean_text_for_triage (some c4Input) = "i think groks bias is so bad see link" ∧
    containsAnyKeyword (clean_text_for_triage (some c4Input)) = true ∧
    load_and_triage_data [c4Row] =
      .ok [(c4Row, "i think groks bias is so bad see link")] :=
  ⟨by decide, by decide, by decide⟩

/-! ## Claim C3 — batch partitioning and partial-failure isolation -/

theorem chunkAux_nil (bs fuel : Nat) : chunkAux bs fuel ([] : List TRow) = [] := by
  cases fuel <;> rfl

theorem chunkAux_flatten (bs : Nat) (hbs : 0 < bs) :
    ∀ (fuel : Nat) (l : List TRow), l.length ≤ fuel → (chunkAux bs fuel l).flatten = l := by
  intro fuel
  induction fuel with
  | zero =>
    intro l hl
    have hnil : l = [] := List.eq_nil_of_length_eq_zero (Nat.le_zero.mp hl)
    subst hnil
    rfl
  | succ fuel ih =>
    intro l hl
    cases l with
    | nil => rfl
    | cons a as =>
      have hlen : (List.drop bs (a :: as)).length ≤ fuel := by
        rw [List.length_drop]
        simp only [List.length_cons] at hl ⊢
        omega
      show (List.take bs (a :: as) :: chunkAux bs fuel (List.drop bs (a :: as))).flatten = a :: as
      rw [List.flatten_cons, ih _ hlen, List.take_append_drop]

theorem chunkAux_mem (bs : Nat) (hbs : 0 < bs) :
    ∀ (fuel : Nat) (l : List TRow), l.length ≤ fuel →
      ∀ c ∈ chunkAux bs fuel l, c ≠ [] ∧ c.length ≤ bs := by
  intro fuel
  induction fuel with
  | zero =>
    intro l hl c hc
    have hnil : l = [] := List.eq_nil_of_length_eq_zero (Nat.le_zero.mp hl)
    subst hnil
    rw [chunkAux_nil] at hc
    exact absurd hc (List.not_mem_nil c)
  | succ fuel ih =>
    intro l hl c hc
    cases l with
    | nil =>
      rw [chunkAux_nil] at hc
      exact absurd hc (List.not_mem_nil c)
    | cons a as =>
      have hred : chunkAux bs (fuel + 1) (a :: as) =
          List.take bs (a :: as) :: chunkAux bs fuel (List.drop bs (a :: as)) := rfl
      rw [hred, List.mem_cons] at hc
      rcases hc with rfl | hc
      · constructor
        · obtain ⟨b, rfl⟩ : ∃ b, bs = b + 1 := ⟨bs - 1, by omega⟩
          simp [List.take_succ_cons]
        · rw [List.length_take]
          exact Nat.min_le_left _ _
      · have hlen : (List.drop bs (a :: as)).length ≤ fuel := by
          rw [List.length_drop]
          simp only [List.length_cons] at hl ⊢
          omega
        exact ih _ hlen c hc

theorem chunkAux_getD (bs : Nat) (hbs : 0 < bs) :
    ∀ (fuel : Nat) (l : List TRow) (i : Nat), l.length ≤ fuel →
      i + 1 < (chunkAux bs fuel l).length →
      ((chunkAux bs fuel l).getD i []).length = bs := by
  intro fuel
  induction fuel with
  | zero =>
    intro l i hl hi
    have hnil : l = [] := List.eq_nil_of_length_eq_zero (Nat.le_zero.mp hl)
    subst hnil
    rw [chunkAux_nil] at hi
    simp at hi
  | succ fuel ih =>
    intro l i hl hi
    cases l with
    | nil =>
      rw [chunkAux_nil] at hi
      simp at hi
    | cons a as =>
      have hred : chunkAux bs (fuel + 1) (a :: as) =
          List.take bs (a :: as) :: chunkAux bs fuel (List.drop bs (a :: as)) := rfl
      have hlen : (List.drop bs (a :: as)).length ≤ fuel := by
        rw [List.length_drop]
        simp only [List.length_cons] at hl ⊢
        omega
      rw [hred] at hi ⊢
      cases i with
      | zero =>
        rw [List.getD_cons_zero]
        have hne : chunkAux bs fuel (List.drop bs (a :: as)) ≠ [] := by
          intro hnil
          rw [hnil] at hi
          simp at hi
        have hdropne : List.drop bs (a :: as) ≠ [] := by
          intro hdnil
          rw [hdnil] at hne
          exact hne (chunkAux_nil bs fuel)
        have hblt : bs < (a :: as).length := by
          by_contra hle
          push_neg at hle
          exact hdropne (List.drop_eq_nil_iff.mpr hle)
        rw [List.length_take]
        exact Nat.min_eq_left (Nat.le_of_lt hblt)
      | succ i =>
        rw [List.getD_cons_succ]
        apply ih _ i hlen
        simp only [List.length_cons] at hi
        omega

theorem batchLoop_cons (cl : Nat → List TRow → Except Unit (List CRec))
    (b : List TRow) (bs : List (List TRow)) (i : Nat) (res : List CRec)
    (qf : Option (List QEntry)) :
    batchLoop cl (b :: bs) i res qf =
      batchLoop cl bs (i + 1) (res ++ (analyze_batch (cl i b) b qf).1)
        (analyze_batch (cl i b) b qf).2 := rfl

theorem batchLoop_all_ok (g : List TRow → List CRec) (k : Nat) :
    ∀ (bs : List (List TRow)) (i : Nat) (res : List CRec) (qf : Option (List QEntry)),
      (∀ j, j < bs.length → i + j ≠ k) →
      batchLoop (failClassify k g) bs i res qf = (res ++ (bs.map g).flatten, qf) := by
  intro bs
  induction bs with
  | nil =>
    intro i res qf _
    show (res, qf) = (res ++ [], qf)
    rw [List.append_nil]
  | cons b bs ih =>
    intro i res qf h
    have hik : i ≠ k := by
      have h0 := h 0 (by simp)
      simpa using h0
    have hcl : failClassify k g i b = .ok (g b) := by
      unfold failClassify
      rw [if_neg hik]
    rw [batchLoop_cons, hcl]
    show batchLoop (failClassify k g) bs (i + 1) (res ++ g b) qf = _
    rw [ih (i + 1) (res ++ g b) qf (fun j hj => by
      have := h (j + 1) (by simpa using Nat.succ_lt_succ hj)
      omega)]
    simp [List.flatten_cons, List.append_assoc]

theorem batchLoop_fail_at (g : List TRow → List CRec) (k : Nat) :
    ∀ (bs : List (List TRow)) (i : Nat) (res : List CRec) (qf : Option (List QEntry)),
      i ≤ k → k - i < bs.length →
      batchLoop (failClassify k g) bs i res qf =
        (res ++ ((bs.take (k - i)).map g).flatten ++ ((bs.drop (k - i + 1)).map g).flatten,
         appendQuarantine qf (bs.getD (k - i) [])) := by
  intro bs
  induction bs with
  | nil =>
    intro i res qf hik hlt
    simp at hlt
  | cons b bs ih =>
    intro i res qf hik hlt
    rw [batchLoop_cons]
    by_cases hi : i = k
    · subst hi
      have hcl : failClassify i g i b = .error () := by
        unfold failClassify
        rw [if_pos rfl]
      rw [hcl]
      show batchLoop (failClassify i g) bs (i + 1) (res ++ []) (appendQuarantine qf b) = _
      rw [List.append_nil,
          batchLoop_all_ok g i bs (i + 1) res (appendQuarantine qf b) (fun j hj => by omega)]
      simp [Nat.sub_self]
    · have hlt_ik : i < k := lt_of_le_of_ne hik hi
      have hcl : failClassify k g i b = .ok (g b) := by
        unfold failClassify
        rw [if_neg hi]
      rw [hcl]
      show batchLoop (failClassify k g) bs (i + 1) (res ++ g b) qf = _
      have hlt2 : k - (i + 1) < bs.length := by
        simp only [List.length_cons] at hlt
        omega
      rw [ih (i + 1) (res ++ g b) qf (by omega) hlt2]
      obtain ⟨m, hm⟩ : ∃ m, k - i = m + 1 := ⟨k - i - 1, by omega⟩
      have hm2 : k - (i + 1) = m := by omega
      rw [hm, hm2]
      simp [List.take_succ_cons, List.drop_succ_cons, List.getD_cons_succ,
        List.flatten_cons, List.append_assoc]

/-- Claim C3: the triage output is partitioned into order-preserving
batches (their concatenation is the input, each batch is nonempty with at
most `BATCH_SIZE` rows, every batch but the last has exactly
`BATCH_SIZE`); when exactly batch `k` fails, the quarantine file gains
exactly batch `k`'s rows (with a header only if the file did not yet
exist — the `appendQuarantine` cases), batch `k` contributes nothing to
the accumulator, and the results of all other batches are accumulated in
order — the run continues past the failure. -/
theorem batch_partial_failure (g : List TRow → List CRec) (k : Nat)
    (triaged : List TRow) (qf0 : Option (List QEntry))
    (hk : k < (chunkBatches triaged).length) :
    (chunkBatches triaged).flatten = triaged ∧
    (∀ c ∈ chunkBatches triaged, c ≠ [] ∧ c.length ≤ BATCH_SIZE) ∧
    (∀ i, i + 1 < (chunkBatches triaged).length →
      ((chunkBatches triaged).getD i []).length = BATCH_SIZE) ∧
    runClassification (failClassify k g) triaged qf0 =
      ((((chunkBatches triaged).take k).map g).flatten ++
        (((chunkBatches triaged).drop (k + 1)).map g).flatten,
       appendQuarantine qf0 ((chunkBatches triaged).getD k [])) := by
  have hbs : 0 < BATCH_SIZE := by decide
  refine ⟨chunkAux_flatten BATCH_SIZE hbs _ _ le_rfl,
          chunkAux_mem BATCH_SIZE hbs _ _ le_rfl,
          fun i hi => chunkAux_getD BATCH_SIZE hbs _ _ i le_rfl hi, ?_⟩
  unfold runClassification
  rw [batchLoop_fail_at g k (chunkBatches triaged) 0 [] qf0 (Nat.zero_le k)
    (by simpa using hk)]
  simp

set_option maxRecDepth 40000 in
/-- Witness for C3 at the spec's concrete 120-row, batch-size-50,
batch-2-fails scenario: 3 batches of 50, 50, 20; 70 accumulated results;
the quarantine file is created with a header followed by exactly the 50
rows of the failing batch. -/
theorem batch_partial_failure_witness :
    (chunkBatches t120).map List.length = [50, 50, 20] ∧
    (runClassification (failClassify 1 g120) t120 none).1.length = 70 ∧
    (runClassification (failClassify 1 g120) t120 none).2 =
      some (QEntry.header :: ((t120.drop 50).take 50).map QEntry.row) := by
  have h := (batch_partial_failure g120 1 t120 none (by decide)).2.2.2
  refine ⟨by decide, ?_, ?_⟩
  · rw [h]
    decide
  · rw [h]
    decide

/-! ## Claim C1 — idempotent resume of ingestion

Strategy: the second run's state is simulated against the first run's.
The resume set rebuilt from the Ledger after run one contains the post id
of every row run one wrote; a post that wrote at least one row is
therefore skipped by run two, and a post that wrote no rows writes no
rows again (the source set is unchanged, so each submission carries the
same fetch outcome), so run two appends nothing. -/

theorem processPost_go_ledger (st : ScrapeState) (sub : Submission) (h : sub.id ∉ st.ids) :
    (processPost st sub).ledger = st.ledger ++ writtenRows sub := by
  rw [processPost_go st sub h]

theorem processPost_go_ids (st : ScrapeState) (sub : Submission) (h : sub.id ∉ st.ids) :
    (processPost st sub).ids = insertId sub.id st.ids := by
  rw [processPost_go st sub h]

theorem processPost_ledger_ext (st : ScrapeState) (sub : Submission) :
    ∃ w, (processPost st sub).ledger = st.ledger ++ w := by
  by_cases hm : sub.id ∈ st.ids
  · exact ⟨[], by rw [processPost_skip st sub hm, List.append_nil]⟩
  · exact ⟨writtenRows sub, processPost_go_ledger st sub hm⟩

theorem foldl_ledger_ext :
    ∀ (posts : List Submission) (st : ScrapeState),
      ∃ ext, (List.foldl processPost st posts).ledger = st.ledger ++ ext := by
  intro posts
  induction posts with
  | nil => intro st; exact ⟨[], (List.append_nil _).symm⟩
  | cons p ps ih =>
    intro st
    obtain ⟨w, hw⟩ := processPost_ledger_ext st p
    obtain ⟨ext, hext⟩ := ih (processPost st p)
    refine ⟨w ++ ext, ?_⟩
    rw [List.foldl_cons, hext, hw, List.append_assoc]

theorem writtenRows_get1 (sub : Submission) :
    ∀ r ∈ writtenRows sub, r.get? 1 = some sub.id := by
  intro r hr
  unfold writtenRows at hr
  rw [List.mem_filterMap] at hr
  obtain ⟨c, _, hc⟩ := hr
  cases hv : validBody c.body with
  | none => rw [hv] at hc; exact Option.noConfusion hc
  | some b =>
    rw [hv] at hc
    injection hc with hc
    subst hc
    rfl

theorem writtenRows_len (sub : Submission) :
    ∀ r ∈ writtenRows sub, r = [] ∨ 2 ≤ r.length := by
  intro r hr
  unfold writtenRows at hr
  rw [List.mem_filterMap] at hr
  obtain ⟨c, _, hc⟩ := hr
  cases hv : validBody c.body with
  | none => rw [hv] at hc; exact Option.noConfusion hc
  | some b =>
    rw [hv] at hc
    injection hc with hc
    subst hc
    right
    rw [show (commentRow sub c b).length = 7 from rfl]
    omega

theorem fold_ledger_rows :
    ∀ (posts : List Submission) (st : ScrapeState) (r : List String),
      r ∈ (List.foldl processPost st posts).ledger →
      r ∈ st.ledger ∨ ∃ sub, sub ∈ posts ∧ r ∈ writtenRows sub := by
  intro posts
  induction posts with
  | nil => intro st r hr; exact Or.inl hr
  | cons p ps ih =>
    intro st r hr
    rw [List.foldl_cons] at hr
    rcases ih (processPost st p) r hr with hin | ⟨sub, hsub, hrw⟩
    · by_cases hm : p.id ∈ st.ids
      · rw [processPost_skip st p hm] at hin
        exact Or.inl hin
      · rw [processPost_go_ledger st p hm] at hin
        rcases List.mem_append.mp hin with hin | hin
        · exact Or.inl hin
        · exact Or.inr ⟨p, List.mem_cons_self _ _, hin⟩
    · exact Or.inr ⟨sub, List.mem_cons_of_mem _ hsub, hrw⟩

theorem run2_sim :
    ∀ (posts : List Submission) (st1 st2 : ScrapeState) (idsB : List String),
      (∀ x, x ∈ st2.ids ↔ (x ∈ idsB ∨ x ∈ st1.ids)) →
      (∀ r pid, r ∈ (List.foldl processPost st1 posts).ledger → r.get? 1 = some pid →
        pid ∈ idsB) →
      (List.foldl processPost st2 posts).ledger = st2.ledger ∧
      (∀ x, x ∈ (List.foldl processPost st2 posts).ids ↔
        (x ∈ idsB ∨ x ∈ (List.foldl processPost st1 posts).ids)) := by
  intro posts
  induction posts with
  | nil =>
    intro st1 st2 idsB hIff hLed
    exact ⟨rfl, hIff⟩
  | cons p ps ih =>
    intro st1 st2 idsB hIff hLed
    simp only [List.foldl_cons] at hLed ⊢
    by_cases h1 : p.id ∈ st1.ids
    · rw [processPost_skip st1 p h1] at hLed ⊢
      have h2 : p.id ∈ st2.ids := (hIff p.id).mpr (Or.inr h1)
      rw [processPost_skip st2 p h2]
      exact ih st1 st2 idsB hIff hLed
    · have hgoIds : (processPost st1 p).ids = insertId p.id st1.ids :=
        processPost_go_ids st1 p h1
      by_cases hW : writtenRows p = []
      · by_cases h2 : p.id ∈ st2.ids
        · rw [processPost_skip st2 p h2]
          refine ih (processPost st1 p) st2 idsB ?_ hLed
          intro x
          rw [hgoIds, insertId_mem]
          constructor
          · intro hx2
            rcases (hIff x).mp hx2 with hB | hx1
            · exact Or.inl hB
            · exact Or.inr (Or.inr hx1)
          · rintro (hB | rfl | hx1)
            · exact (hIff x).mpr (Or.inl hB)
            · exact h2
            · exact (hIff x).mpr (Or.inr hx1)
        · have hgoLed2 : (processPost st2 p).ledger = st2.ledger ++ writtenRows p :=
            processPost_go_ledger st2 p h2
          have hgoIds2 : (processPost st2 p).ids = insertId p.id st2.ids :=
            processPost_go_ids st2 p h2
          have hIff2 : ∀ x, x ∈ (processPost st2 p).ids ↔
              (x ∈ idsB ∨ x ∈ (processPost st1 p).ids) := by
            intro x
            rw [hgoIds2, insertId_mem, hgoIds, insertId_mem]
            constructor
            · rintro (rfl | hx2)
              · exact Or.inr (Or.inl rfl)
              · rcases (hIff x).mp hx2 with hB | hx1
                · exact Or.inl hB
                · exact Or.inr (Or.inr hx1)
            · rintro (hB | rfl | hx1)
              · exact Or.inr ((hIff x).mpr (Or.inl hB))
              · exact Or.inl rfl
              · exact Or.inr ((hIff x).mpr (Or.inr hx1))
          obtain ⟨hA, hB2⟩ := ih (processPost st1 p) (processPost st2 p) idsB hIff2 hLed
          refine ⟨?_, hB2⟩
          rw [hA, hgoLed2, hW, List.append_nil]
      · obtain ⟨r0, hr0⟩ := List.exists_mem_of_ne_nil _ hW
        have hr0in : r0 ∈ (List.foldl processPost (processPost st1 p) ps).ledger := by
          obtain ⟨ext, hext⟩ := foldl_ledger_ext ps (processPost st1 p)
          rw [hext, processPost_go_ledger st1 p h1]
          exact List.mem_append.mpr (Or.inl (List.mem_append.mpr (Or.inr hr0)))
        have hpB : p.id ∈ idsB := hLed r0 p.id hr0in (writtenRows_get1 p r0 hr0)
        have h2 : p.id ∈ st2.ids := (hIff p.id).mpr (Or.inl hpB)
        rw [processPost_skip st2 p h2]
        refine ih (processPost st1 p) st2 idsB ?_ hLed
        intro x
        rw [hgoIds, insertId_mem]
        constructor
        · intro hx2
          rcases (hIff x).mp hx2 with hB | hx1
          · exact Or.inl hB
          · exact Or.inr (Or.inr hx1)
        · rintro (hB | rfl | hx1)
          · exact (hIff x).mpr (Or.inl hB)
          · exact h2
          · exact (hIff x).mpr (Or.inr hx1)

theorem run_scraper_eq :
    ∀ (source : List SubSource) (st : ScrapeState),
      run_scraper source st = List.foldl processPost st (postsOf source) := by
  intro source
  induction source with
  | nil => intro st; rfl
  | cons s rest ih =>
    intro st
    show run_scraper rest (processSub st s) = List.foldl processPost st (postsOf (s :: rest))
    rw [ih (processSub st s)]
    have hps : processSub st s = List.foldl processPost st (s.listing.getD []) := by
      unfold processSub
      cases hls : s.listing with
      | none => rfl
      | some posts => rfl
    rw [hps]
    have hpost : postsOf (s :: rest) = s.listing.getD [] ++ postsOf rest := by
      unfold postsOf
      rw [List.map_cons, List.flatten_cons]
    rw [hpost, List.foldl_append]

theorem isOk_exists {ε α : Type} {e : Except ε α} (h : e.isOk = true) : ∃ a, e = .ok a := by
  cases e with
  | ok a => exact ⟨a, rfl⟩
  | error b => exact Bool.noConfusion h

theorem bsia_mono :
    ∀ (rs : List (List String)) (acc out : List String),
      buildSavedIdsAux rs acc = .ok out → ∀ x ∈ acc, x ∈ out := by
  intro rs
  induction rs with
  | nil =>
    intro acc out h x hx
    injection h with h
    subst h
    exact hx
  | cons r0 rs ih =>
    intro acc out h x hx
    cases r0 with
    | nil => exact ih acc out h x hx
    | cons a r1 =>
      cases r1 with
      | nil => exact Except.noConfusion h
      | cons pid r2 =>
        exact ih (insertId pid acc) out h x ((insertId_mem pid x acc).mpr (Or.inr hx))

theorem bsia_covers :
    ∀ (rs : List (List String)) (acc out : List String),
      buildSavedIdsAux rs acc = .ok out →
      ∀ r ∈ rs, ∀ pid, r.get? 1 = some pid → pid ∈ out := by
  intro rs
  induction rs with
  | nil =>
    intro acc out h r hr
    exact absurd hr (List.not_mem_nil r)
  | cons r0 rs ih =>
    intro acc out h r hr pid hpid
    cases r0 with
    | nil =>
      rcases List.mem_cons.mp hr with rfl | hr2
      · exact Option.noConfusion hpid
      · exact ih acc out h r hr2 pid hpid
    | cons a r1 =>
      cases r1 with
      | nil => exact Except.noConfusion h
      | cons pid0 r2 =>
        rcases List.mem_cons.mp hr with rfl | hr2
        · have h3 : some pid0 = some pid := hpid
          injection h3 with h3
          subst h3
          exact bsia_mono rs (insertId pid0 acc) out h pid0
            ((insertId_mem _ _ _).mpr (Or.inl rfl))
        · exact ih (insertId pid0 acc) out h r hr2 pid hpid

theorem bsia_append :
    ∀ (a b : List (List String)) (acc : List String),
      buildSavedIdsAux (a ++ b) acc =
        match buildSavedIdsAux a acc with
        | .ok m => buildSavedIdsAux b m
        | .error e => .error e := by
  intro a
  induction a with
  | nil => intro b acc; rfl
  | cons r0 a ih =>
    intro b acc
    cases r0 with
    | nil => exact ih b acc
    | cons x r1 =>
      cases r1 with
      | nil => rfl
      | cons pid r2 => exact ih b (insertId pid acc)

theorem scraperRun_fp_aux (source : List SubSource) (L1 : List (List String))
    (ids0 idsB : List String)
    (hB2 : initialize_resume L1 = .ok idsB)
    (hNE : L1.isEmpty = false)
    (hSub : ∀ x ∈ ids0, x ∈ idsB)
    (hCov : ∀ r pid, r ∈ (run_scraper source { ledger := [], ids := ids0 }).ledger →
      r.get? 1 = some pid → pid ∈ idsB) :
    scraperRun source L1 = .ok L1 := by
  have hIff : ∀ x, x ∈ ({ ledger := [], ids := idsB } : ScrapeState).ids ↔
      (x ∈ idsB ∨ x ∈ ({ ledger := [], ids := ids0 } : ScrapeState).ids) := by
    intro x
    show x ∈ idsB ↔ x ∈ idsB ∨ x ∈ ids0
    constructor
    · exact Or.inl
    · rintro (hB | h0)
      · exact hB
      · exact hSub x h0
  have hLed : ∀ r pid,
      r ∈ (List.foldl processPost { ledger := [], ids := ids0 } (postsOf source)).ledger →
      r.get? 1 = some pid → pid ∈ idsB := by
    intro r pid hr
    rw [← run_scraper_eq] at hr
    exact hCov r pid hr
  have hsim := run2_sim (postsOf source) { ledger := [], ids := ids0 }
      { ledger := [], ids := idsB } idsB hIff hLed
  have hled2 : (run_scraper source { ledger := [], ids := idsB }).ledger = [] := by
    rw [run_scraper_eq]
    exact hsim.1
  simp only [scraperRun, hB2]
  rw [hled2]
  simp [hNE]

/-- Claim C1: on an unchanged source set, a second scraper run is the
identity on the Ledger file: whatever Ledger a first run produced, running
again against the same source yields exactly that Ledger — the resume set
rebuilt from column index 1 of the existing data rows makes every post
whose rows are present be skipped, and the remaining posts append nothing
new. -/
theorem idempotent_resume (source : List SubSource) (L0 L1 : List (List String))
    (h : scraperRun source L0 = .ok L1) :
    scraperRun source L1 = .ok L1 := by
  simp only [scraperRun] at h
  cases hInit : initialize_resume L0 with
  | error e =>
    rw [hInit] at h
    exact Except.noConfusion h
  | ok ids0 =>
    rw [hInit] at h
    injection h with h
    have hShape : ∀ r ∈ (run_scraper source { ledger := [], ids := ids0 }).ledger,
        r = [] ∨ 2 ≤ r.length := by
      intro r hr
      rw [run_scraper_eq] at hr
      rcases fold_ledger_rows (postsOf source) _ r hr with hin | ⟨sub, _, hw⟩
      · exact absurd hin (List.not_mem_nil r)
      · exact writtenRows_len sub r hw
    cases L0 with
    | nil =>
      have hids0 : ids0 = [] := by
        injection hInit with h0
        exact h0.symm
      subst hids0
      have hL1 : L1 = ledgerHeader :: (run_scraper source { ledger := [], ids := [] }).ledger := by
        rw [← h]
        rfl
      obtain ⟨idsB, hB⟩ := isOk_exists
        (bsia_ok_of_shape (run_scraper source { ledger := [], ids := [] }).ledger [] hShape)
      have hB2 : initialize_resume L1 = .ok idsB := by
        rw [hL1]
        exact hB
      have hNE : L1.isEmpty = false := by
        rw [hL1]
        rfl
      have hSub : ∀ x ∈ ([] : List String), x ∈ idsB := by
        intro x hx
        exact absurd hx (List.not_mem_nil x)
      have hCov : ∀ r pid, r ∈ (run_scraper source { ledger := [], ids := [] }).ledger →
          r.get? 1 = some pid → pid ∈ idsB :=
        fun r pid hr hp => bsia_covers _ [] idsB hB r hr pid hp
      exact scraperRun_fp_aux source L1 [] idsB hB2 hNE hSub hCov
    | cons hd d =>
      have hInit' : buildSavedIdsAux d [] = .ok ids0 := hInit
      have hL1 : L1 =
          hd :: (d ++ (run_scraper source { ledger := [], ids := ids0 }).ledger) := by
        rw [← h]
        rfl
      have happ := bsia_append d (run_scraper source { ledger := [], ids := ids0 }).ledger []
      rw [hInit'] at happ
      obtain ⟨idsB, hB⟩ := isOk_exists
        (bsia_ok_of_shape (run_scraper source { ledger := [], ids := ids0 }).ledger ids0 hShape)
      have hB2 : initialize_resume L1 = .ok idsB := by
        rw [hL1]
        show buildSavedIdsAux (d ++ (run_scraper source { ledger := [], ids := ids0 }).ledger) [] =
          .ok idsB
        rw [happ]
        exact hB
      have hNE : L1.isEmpty = false := by
        rw [hL1]
        rfl
      have hSub : ∀ x ∈ ids0, x ∈ idsB :=
        fun x hx => bsia_mono _ ids0 idsB hB x hx
      have hCov : ∀ r pid, r ∈ (run_scraper source { ledger := [], ids := ids0 }).ledger →
          r.get? 1 = some pid → pid ∈ idsB :=
        fun r pid hr hp => bsia_covers _ ids0 idsB hB r hr pid hp
      exact scraperRun_fp_aux source L1 ids0 idsB hB2 hNE hSub hCov

/-- Witness for C1: a concrete one-post source scraped into an empty
Ledger; running again over the resulting Ledger leaves it unchanged. -/
theorem idempotent_resume_witness : scraperRun srcEx ledgerEx = .ok ledgerEx :=
  idempotent_resume srcEx [] ledgerEx (by decide)
